import Mathlib

/-!
Verification of the result-merging backend (`src/main.py`) of the
medicine-identification-from-image repository.

The development shallowly embeds the aggregation core `merge_results`
(src/main.py, lines 65-129) and the `/identify/` endpoint logic
`identify_medicine` (src/main.py, lines 131-148).

Embedding choices, each traced to the Python source:

* A per-image model response is a JSON value.  For the aggregator only two
  shapes matter (line 85 checks `isinstance(result, dict)`): a dictionary —
  which may carry the keys `accurate` and `guessed`, each a record of the
  optional fields `name`, `dosage`, `side_effects`, `manufacturer`, `usage`
  (lines 87-112 test each key with `in` before reading it) — or anything
  that is not a dictionary, which the loop skips.  `Entry` captures exactly
  this distinction; `ImageResult` and `FieldGuess` capture key presence with
  `Option`.
* A `collections.Counter` built only by `c[v] += 1` is a finite map from
  values to positive counts whose key order is insertion order, i.e. order
  of first occurrence.  It is embedded as an association list
  `List (String × Nat)`; `bump` is the embedding of `c[v] += 1`.
* `c.most_common(1)[0][0] if c else "Unknown"` (lines 116-127): CPython's
  `Counter.most_common(1)` is `heapq.nlargest(1, items, key=count)`, which
  for `n = 1` is `max(items, key=count)`; `max` keeps the earliest item
  among ties, so the expression returns the first-inserted key of maximal
  count, and `"Unknown"` for an empty counter.  `selectTop` (via `pickMax`)
  is that selection rule over the association list.
* `list(set(merged))` (lines 118 and 125) keeps exactly the distinct
  elements of `merged` in an unspecified order; it is embedded as
  `List.dedup`, and every theorem about `side_effects` compares contents as
  sets (`toFinset` / membership), never order.
-/

namespace MedIdent

/-- One identification lens of a per-image result: the fields the model may
or may not have supplied.  `none` embeds an absent dictionary key. -/
structure FieldGuess where
  name : Option String := none
  dosage : Option String := none
  side_effects : Option (List String) := none
  manufacturer : Option String := none
  usage : Option String := none
  deriving Repr, DecidableEq

/-- A per-image result dictionary: the optional `accurate` and `guessed`
keys (src/main.py lines 87 and 101). -/
structure ImageResult where
  accurate : Option FieldGuess := none
  guessed : Option FieldGuess := none
  deriving Repr, DecidableEq

/-- An element of the list handed to `merge_results`: either a dictionary
(an `ImageResult`) or any non-dictionary JSON value, which line 85's
`isinstance(result, dict)` check makes the loop skip. -/
inductive Entry where
  | obj (r : ImageResult)
  | nondict
  deriving Repr, DecidableEq

/-- The two lenses of a result. -/
inductive Lens where
  | accurate
  | guessed
  deriving Repr, DecidableEq

/-- The four scalar (string-valued) fields of a lens. -/
inductive SField where
  | name
  | dosage
  | manufacturer
  | usage
  deriving Repr, DecidableEq

/-- Embedding of `Counter` increment `c[v] += 1`: if the key is present its
count grows by one, otherwise the key is appended with count 1 (insertion
order = first-occurrence order, as for a Python dict). -/
def bump (c : List (String × Nat)) (v : String) : List (String × Nat) :=
  if v ∈ c.map Prod.fst then
    c.map (fun p => if p.1 = v then (p.1, p.2 + 1) else p)
  else
    c ++ [(v, 1)]

/-- The counter obtained from the votes `vs` in traversal order. -/
def tallyList (vs : List String) : List (String × Nat) :=
  vs.foldl bump []

/-- Embedding of CPython's `max(items, key=count)` scan underlying
`most_common(1)`: the running best is replaced only on a strictly larger
count, so the earliest item among ties survives. -/
def pickMax (p : String × Nat) : List (String × Nat) → String × Nat
  | [] => p
  | q :: rest => pickMax (if p.2 < q.2 then q else p) rest

/-- Embedding of `c.most_common(1)[0][0] if c else "Unknown"`
(src/main.py lines 116-127). -/
def selectTop (c : List (String × Nat)) : String :=
  match c with
  | [] => "Unknown"
  | p :: rest => (pickMax p rest).1

/-- The mutable per-lens accumulator of `merged_data` (src/main.py lines
67-82): one counter per scalar field and a growing `side_effects` list. -/
structure LensState where
  name : List (String × Nat)
  dosage : List (String × Nat)
  side_effects : List String
  manufacturer : List (String × Nat)
  usage : List (String × Nat)
  deriving Repr, DecidableEq

/-- The initial `merged_data` entry for one lens: empty counters and an
empty `side_effects` list. -/
def LensState.init : LensState :=
  ⟨[], [], [], [], []⟩

/-- The whole `merged_data` structure. -/
structure MergedState where
  accurate : LensState
  guessed : LensState
  deriving Repr, DecidableEq

/-- One lens of the loop body (src/main.py lines 89-98 and 103-112): each
field key present in the guess votes once; a present `side_effects` list is
appended (`extend`). -/
def mergeLens (st : LensState) (g : FieldGuess) : LensState :=
  { name := match g.name with
      | some v => bump st.name v
      | none => st.name
    dosage := match g.dosage with
      | some v => bump st.dosage v
      | none => st.dosage
    side_effects := match g.side_effects with
      | some l => st.side_effects ++ l
      | none => st.side_effects
    manufacturer := match g.manufacturer with
      | some v => bump st.manufacturer v
      | none => st.manufacturer
    usage := match g.usage with
      | some v => bump st.usage v
      | none => st.usage }

/-- One iteration of the loop over `results` (src/main.py lines 84-112):
non-dictionaries are skipped, then the `accurate` and `guessed` sub-records
are merged when present. -/
def mergeStep (st : MergedState) (e : Entry) : MergedState :=
  match e with
  | .nondict => st
  | .obj r =>
    let st1 : MergedState :=
      match r.accurate with
      | some g => { st with accurate := mergeLens st.accurate g }
      | none => st
    match r.guessed with
    | some g => { st1 with guessed := mergeLens st1.guessed g }
    | none => st1

/-- One lens of the consolidated output: every scalar field is a plain
string, `side_effects` a list of strings. -/
structure ConsolidatedLens where
  name : String
  dosage : String
  side_effects : List String
  manufacturer : String
  usage : String
  deriving Repr, DecidableEq

/-- The consolidated output of the aggregator. -/
structure ConsolidatedResult where
  accurate : ConsolidatedLens
  guessed : ConsolidatedLens
  deriving Repr, DecidableEq

/-- The return expression of `merge_results` for one lens (src/main.py
lines 115-128): plurality choice (or `"Unknown"`) per scalar field and
duplicate removal for `side_effects`. -/
def finalizeLens (st : LensState) : ConsolidatedLens :=
  { name := selectTop st.name
    dosage := selectTop st.dosage
    side_effects := st.side_effects.dedup
    manufacturer := selectTop st.manufacturer
    usage := selectTop st.usage }

/-- Embedding of `merge_results` (src/main.py lines 65-129). -/
def merge_results (results : List Entry) : ConsolidatedResult :=
  let st := results.foldl mergeStep ⟨LensState.init, LensState.init⟩
  ⟨finalizeLens st.accurate, finalizeLens st.guessed⟩

/-! Lens- and field-indexed accessors, used to state properties uniformly
over the two lenses and four scalar fields. -/

/-- Scalar field accessor on a guess. -/
def FieldGuess.getS (g : FieldGuess) : SField → Option String
  | .name => g.name
  | .dosage => g.dosage
  | .manufacturer => g.manufacturer
  | .usage => g.usage

/-- Lens accessor on an image result. -/
def ImageResult.getLens (r : ImageResult) : Lens → Option FieldGuess
  | .accurate => r.accurate
  | .guessed => r.guessed

/-- Lens accessor on the merged state. -/
def MergedState.getLens (st : MergedState) : Lens → LensState
  | .accurate => st.accurate
  | .guessed => st.guessed

/-- Counter accessor on a lens state. -/
def LensState.projC (st : LensState) : SField → List (String × Nat)
  | .name => st.name
  | .dosage => st.dosage
  | .manufacturer => st.manufacturer
  | .usage => st.usage

/-- Lens accessor on the consolidated output. -/
def ConsolidatedResult.getLens (c : ConsolidatedResult) : Lens → ConsolidatedLens
  | .accurate => c.accurate
  | .guessed => c.guessed

/-- Scalar field accessor on a consolidated lens. -/
def ConsolidatedLens.getS (c : ConsolidatedLens) : SField → String
  | .name => c.name
  | .dosage => c.dosage
  | .manufacturer => c.manufacturer
  | .usage => c.usage

/-- The vote an entry casts for lens `L`, scalar field `F`: present exactly
when the entry is a dictionary carrying the lens and the field. -/
def entryVal (e : Entry) (L : Lens) (F : SField) : Option String :=
  match e with
  | .obj r => (r.getLens L).bind (fun g => g.getS F)
  | .nondict => none

/-- The `side_effects` list an entry contributes for lens `L` (empty when
absent or not a dictionary). -/
def entrySE (e : Entry) (L : Lens) : List String :=
  match e with
  | .obj r =>
    match (r.getLens L).bind FieldGuess.side_effects with
    | some l => l
    | none => []
  | .nondict => []

/-- All votes cast for lens `L`, scalar field `F`, in traversal order of
the input sequence; entries where the field is absent contribute nothing. -/
def fieldVals (results : List Entry) (L : Lens) (F : SField) : List String :=
  results.filterMap (fun e => entryVal e L F)

/-- The concatenation of all contributed `side_effects` lists for lens `L`,
in traversal order. -/
def sideVals (results : List Entry) (L : Lens) : List String :=
  (results.map (fun e => entrySE e L)).flatten

/-- `True` exactly on dictionary entries (the line 85 check). -/
def Entry.isDict : Entry → Bool
  | .obj _ => true
  | .nondict => false

/-- Equality of consolidated lenses up to the unspecified order of
`side_effects` (scalar fields equal, `side_effects` equal as sets). -/
def ConsolidatedLens.equivSet (a b : ConsolidatedLens) : Prop :=
  a.name = b.name ∧ a.dosage = b.dosage ∧ a.manufacturer = b.manufacturer ∧
  a.usage = b.usage ∧ a.side_effects.toFinset = b.side_effects.toFinset

/-- Equality of consolidated results up to the unspecified order of the
two `side_effects` lists. -/
def ConsolidatedResult.equivSet (a b : ConsolidatedResult) : Prop :=
  a.accurate.equivSet b.accurate ∧ a.guessed.equivSet b.guessed

/-- Outcome of `analyze_image` as observed by the endpoint loop
(src/main.py lines 136-142): either a dictionary containing the key
`"error"` (the failure marker skipped by line 140's check), or any other
JSON value, which is kept. -/
inductive AnalyzeOutcome where
  | errorDict
  | result (e : Entry)
  deriving Repr, DecidableEq

/-- The endpoint's response value: either the error object or the merged
medicine profile. -/
inductive Response where
  | error (msg : String)
  | medicine (r : ConsolidatedResult)
  deriving Repr, DecidableEq

/-- The usable responses the endpoint accumulates: every outcome that is
not a failure marker, in order. -/
def usableResponses (outcomes : List AnalyzeOutcome) : List Entry :=
  outcomes.filterMap (fun o =>
    match o with
    | .errorDict => none
    | .result e => some e)

/-- Embedding of the `identify_medicine` endpoint body (src/main.py lines
131-148), abstracted over the per-image analysis outcomes: failure markers
are skipped; if nothing survives, the error object is returned, otherwise
the merged result. -/
def identify_medicine (outcomes : List AnalyzeOutcome) : Response :=
  let responses := usableResponses outcomes
  if responses = [] then
    .error "Failed to identify medicine from provided images"
  else
    .medicine (merge_results responses)

/-! ### Counter theory: the association list built by `bump` -/

/-- The distinct values of `vs` in order of first occurrence: the key order
of the embedded counter. -/
def firstSeen : List String → List String
  | [] => []
  | v :: rest => v :: (firstSeen rest).filter (fun w => decide (w ≠ v))

lemma mem_firstSeen (vs : List String) (w : String) :
    w ∈ firstSeen vs ↔ w ∈ vs := by
  induction vs with
  | nil => simp [firstSeen]
  | cons v rest ih =>
    by_cases hwv : w = v
    · subst hwv; simp [firstSeen]
    · simp [firstSeen, List.mem_filter, ih, hwv]

lemma firstSeen_append_singleton (vs : List String) (v : String) :
    firstSeen (vs ++ [v]) =
      if v ∈ vs then firstSeen vs else firstSeen vs ++ [v] := by
  induction vs with
  | nil => simp [firstSeen]
  | cons u rest ih =>
    by_cases hv : v ∈ rest
    · simp [firstSeen, ih, hv, List.mem_cons]
    · by_cases hvu : v = u
      · subst hvu
        simp [firstSeen, ih, hv, List.filter_append]
      · simp [firstSeen, ih, hv, hvu, List.filter_append, Ne.symm hvu]

lemma pairwise_indexOf_firstSeen (vs : List String) :
    (firstSeen vs).Pairwise (fun a b => vs.indexOf a < vs.indexOf b) := by
  induction vs with
  | nil => simp [firstSeen]
  | cons v rest ih =>
    rw [firstSeen]
    refine List.pairwise_cons.2 ⟨?_, ?_⟩
    · intro b hb
      rw [List.mem_filter] at hb
      have hbv : b ≠ v := by simpa using hb.2
      rw [List.indexOf_cons_self, List.indexOf_cons_ne _ (Ne.symm hbv)]
      omega
    · refine (ih.filter _).imp_of_mem ?_
      intro a b ha hb hab
      rw [List.mem_filter] at ha hb
      have hav : a ≠ v := by simpa using ha.2
      have hbv : b ≠ v := by simpa using hb.2
      rw [List.indexOf_cons_ne _ (Ne.symm hav), List.indexOf_cons_ne _ (Ne.symm hbv)]
      omega

lemma bump_tally_snoc (p : List String) (v : String) :
    bump ((firstSeen p).map (fun w => (w, p.count w))) v =
      (firstSeen (p ++ [v])).map (fun w => (w, (p ++ [v]).count w)) := by
  by_cases hv : v ∈ p
  · have hmem : v ∈ ((firstSeen p).map fun w => (w, p.count w)).map Prod.fst := by
      simpa [List.map_map, Function.comp, mem_firstSeen] using hv
    rw [bump, if_pos hmem, firstSeen_append_singleton, if_pos hv, List.map_map]
    refine List.map_congr_left ?_
    intro w hw
    by_cases hwv : w = v
    · subst hwv
      simp [Function.comp, List.count_append]
    · have : ¬ (v = w) := fun h => hwv h.symm
      simp [Function.comp, hwv, List.count_append, List.count_singleton', this]
  · have hmem : v ∉ ((firstSeen p).map fun w => (w, p.count w)).map Prod.fst := by
      simpa [List.map_map, Function.comp, mem_firstSeen] using hv
    rw [bump, if_neg hmem, firstSeen_append_singleton, if_neg hv, List.map_append]
    congr 1
    · refine List.map_congr_left ?_
      intro w hw
      have hwp : w ∈ p := (mem_firstSeen p w).1 hw
      have hwv : ¬ (v = w) := fun h => hv (h ▸ hwp)
      simp [List.count_append, List.count_singleton', hwv]
    · have h0 : p.count v = 0 := List.count_eq_zero.2 hv
      simp [List.count_append, List.count_singleton', h0]

lemma foldl_bump_eq : ∀ (vs p : List String),
    vs.foldl bump ((firstSeen p).map (fun w => (w, p.count w))) =
      (firstSeen (p ++ vs)).map (fun w => (w, (p ++ vs).count w)) := by
  intro vs
  induction vs with
  | nil => intro p; simp
  | cons v rest ih =>
    intro p
    rw [List.foldl_cons, bump_tally_snoc p v, ih (p ++ [v])]
    rw [List.append_assoc, List.singleton_append]

lemma tallyList_eq (vs : List String) :
    tallyList vs = (firstSeen vs).map (fun w => (w, vs.count w)) := by
  have h := foldl_bump_eq vs []
  simpa [tallyList, firstSeen] using h

lemma tallyList_mem_pair {vs : List String} {x : String × Nat}
    (hx : x ∈ tallyList vs) : x.1 ∈ vs ∧ x.2 = vs.count x.1 := by
  rw [tallyList_eq] at hx
  obtain ⟨w, hw, rfl⟩ := List.mem_map.1 hx
  exact ⟨(mem_firstSeen vs w).1 hw, rfl⟩

lemma mem_tallyList_of_mem {vs : List String} {v : String} (hv : v ∈ vs) :
    (v, vs.count v) ∈ tallyList vs := by
  rw [tallyList_eq]
  exact List.mem_map.2 ⟨v, (mem_firstSeen vs v).2 hv, rfl⟩

/-- The scan `pickMax` (CPython `max` with a key) returns an element of the
scanned items, of maximal count, and — when the items are strictly sorted by
the measure `f` — the `f`-least among those tied for the maximal count. -/
lemma pickMax_spec (f : String → Nat) :
    ∀ (l : List (String × Nat)) (p : String × Nat),
      (∀ q ∈ l, f p.1 < f q.1) →
      l.Pairwise (fun a b => f a.1 < f b.1) →
      (pickMax p l = p ∨ pickMax p l ∈ l) ∧
      (∀ x, (x = p ∨ x ∈ l) → x.2 ≤ (pickMax p l).2) ∧
      (∀ x, (x = p ∨ x ∈ l) → x.2 = (pickMax p l).2 →
        f (pickMax p l).1 ≤ f x.1) := by
  intro l
  induction l with
  | nil =>
    intro p _ _
    refine ⟨Or.inl rfl, ?_, ?_⟩
    · rintro x (rfl | hx)
      · exact le_refl _
      · cases hx
    · rintro x (rfl | hx) _
      · exact le_refl _
      · cases hx
  | cons q rest ih =>
    intro p hp hpw
    obtain ⟨hq, hrest⟩ := List.pairwise_cons.1 hpw
    by_cases hc : p.2 < q.2
    · rw [pickMax, if_pos hc]
      obtain ⟨hmem, hmax, htie⟩ := ih q hq hrest
      have hqr : q.2 ≤ (pickMax q rest).2 := hmax q (Or.inl rfl)
      refine ⟨?_, ?_, ?_⟩
      · rcases hmem with h | h
        · exact Or.inr (by rw [h]; exact List.mem_cons_self q rest)
        · exact Or.inr (List.mem_cons_of_mem _ h)
      · rintro x (rfl | hx)
        · omega
        · rcases List.mem_cons.1 hx with rfl | hx'
          · exact hmax x (Or.inl rfl)
          · exact hmax x (Or.inr hx')
      · rintro x (rfl | hx) heq
        · omega
        · rcases List.mem_cons.1 hx with rfl | hx'
          · exact htie x (Or.inl rfl) heq
          · exact htie x (Or.inr hx') heq
    · rw [pickMax, if_neg hc]
      have hp' : ∀ x ∈ rest, f p.1 < f x.1 := fun x hx =>
        hp x (List.mem_cons_of_mem _ hx)
      obtain ⟨hmem, hmax, htie⟩ := ih p hp' hrest
      have hpr : p.2 ≤ (pickMax p rest).2 := hmax p (Or.inl rfl)
      refine ⟨?_, ?_, ?_⟩
      · rcases hmem with h | h
        · exact Or.inl h
        · exact Or.inr (List.mem_cons_of_mem _ h)
      · rintro x (rfl | hx)
        · exact hmax x (Or.inl rfl)
        · rcases List.mem_cons.1 hx with rfl | hx'
          · omega
          · exact hmax x (Or.inr hx')
      · rintro x (rfl | hx) heq
        · exact htie x (Or.inl rfl) heq
        · rcases List.mem_cons.1 hx with rfl | hx'
          · have hpe : p.2 = (pickMax p rest).2 := by omega
            have h1 : f (pickMax p rest).1 ≤ f p.1 := htie p (Or.inl rfl) hpe
            have h2 : f p.1 < f x.1 := hp x (List.mem_cons_self x rest)
            omega
          · exact htie x (Or.inr hx') heq

/-- The plurality selection over the tally of `vs`: an element of `vs`, of
maximal multiplicity, and of least first-occurrence index among the values
tied for the maximal multiplicity. -/
lemma selectTop_tallyList_spec (vs : List String) (hvs : vs ≠ []) :
    selectTop (tallyList vs) ∈ vs ∧
    (∀ v ∈ vs, vs.count v ≤ vs.count (selectTop (tallyList vs))) ∧
    (∀ v ∈ vs, vs.count v = vs.count (selectTop (tallyList vs)) →
      vs.indexOf (selectTop (tallyList vs)) ≤ vs.indexOf v) := by
  have hpw : (tallyList vs).Pairwise
      (fun a b => vs.indexOf a.1 < vs.indexOf b.1) := by
    rw [tallyList_eq]
    exact (List.pairwise_map).2 (pairwise_indexOf_firstSeen vs)
  cases htl : tallyList vs with
  | nil =>
    cases vs with
    | nil => exact absurd rfl hvs
    | cons v rest =>
      have hmem := @mem_tallyList_of_mem (v :: rest) v
        (List.mem_cons_self v rest)
      rw [htl] at hmem
      cases hmem
  | cons pp ll =>
    rw [htl] at hpw
    obtain ⟨hhd, hll⟩ := List.pairwise_cons.1 hpw
    have hsel : selectTop (pp :: ll) = (pickMax pp ll).1 := rfl
    obtain ⟨hmem, hmax, htie⟩ := pickMax_spec (fun w => vs.indexOf w) ll pp hhd hll
    have hrt : pickMax pp ll ∈ tallyList vs := by
      rw [htl]
      rcases hmem with h | h
      · rw [h]; exact List.mem_cons_self pp ll
      · exact List.mem_cons_of_mem _ h
    obtain ⟨hrv, hrc⟩ := tallyList_mem_pair hrt
    refine ⟨by rw [hsel]; exact hrv, ?_, ?_⟩
    · intro v hv
      have hpair : (v, vs.count v) ∈ tallyList vs := mem_tallyList_of_mem hv
      rw [htl] at hpair
      have hle : (v, vs.count v).2 ≤ (pickMax pp ll).2 := by
        rcases List.mem_cons.1 hpair with h | h
        · exact hmax _ (Or.inl h)
        · exact hmax _ (Or.inr h)
      rw [hsel, ← hrc]
      exact hle
    · intro v hv heq
      have hpair : (v, vs.count v) ∈ tallyList vs := mem_tallyList_of_mem hv
      rw [htl] at hpair
      have h2 : (v, vs.count v).2 = (pickMax pp ll).2 := by
        rw [hrc]
        rw [hsel] at heq
        exact heq
      have hidx : vs.indexOf (pickMax pp ll).1 ≤ vs.indexOf (v, vs.count v).1 := by
        rcases List.mem_cons.1 hpair with h | h
        · exact htie _ (Or.inl h) h2
        · exact htie _ (Or.inr h) h2
      rw [hsel]
      exact hidx

/-! ### Bridging the loop state to the per-field vote lists -/

lemma mergeStep_projC (st : MergedState) (e : Entry) (L : Lens) (F : SField) :
    ((mergeStep st e).getLens L).projC F =
      (match entryVal e L F with
        | some v => bump ((st.getLens L).projC F) v
        | none => (st.getLens L).projC F) := by
  cases e with
  | nondict => cases L <;> cases F <;> rfl
  | obj r =>
    cases hA : r.accurate <;> cases hB : r.guessed <;> cases L <;> cases F <;>
      simp [mergeStep, mergeLens, entryVal, ImageResult.getLens,
        MergedState.getLens, LensState.projC, FieldGuess.getS, hA, hB]

lemma foldl_mergeStep_projC (L : Lens) (F : SField) :
    ∀ (results : List Entry) (st : MergedState),
      ((results.foldl mergeStep st).getLens L).projC F =
        (fieldVals results L F).foldl bump ((st.getLens L).projC F) := by
  intro results
  induction results with
  | nil => intro st; rfl
  | cons e rs ih =>
    intro st
    rw [List.foldl_cons, ih (mergeStep st e), mergeStep_projC]
    cases h : entryVal e L F with
    | none =>
      simp only [fieldVals, List.filterMap_cons, h]
    | some v =>
      simp only [fieldVals, List.filterMap_cons, h, List.foldl_cons]

lemma mergeStep_projSE (st : MergedState) (e : Entry) (L : Lens) :
    ((mergeStep st e).getLens L).side_effects =
      (st.getLens L).side_effects ++ entrySE e L := by
  cases e with
  | nondict => cases L <;> simp [mergeStep, entrySE, MergedState.getLens]
  | obj r =>
    cases hA : r.accurate <;> cases hB : r.guessed <;> cases L <;>
      simp [mergeStep, mergeLens, entrySE, ImageResult.getLens,
        MergedState.getLens, hA, hB] <;>
      (first
        | simp
        | (rename_i g _; cases g.side_effects <;> simp)
        | (rename_i g; cases g.side_effects <;> simp))

lemma foldl_mergeStep_projSE (L : Lens) :
    ∀ (results : List Entry) (st : MergedState),
      ((results.foldl mergeStep st).getLens L).side_effects =
        (st.getLens L).side_effects ++ sideVals results L := by
  intro results
  induction results with
  | nil => intro st; simp [sideVals]
  | cons e rs ih =>
    intro st
    rw [List.foldl_cons, ih (mergeStep st e), mergeStep_projSE]
    simp [sideVals, List.append_assoc]

lemma merge_results_getS (results : List Entry) (L : Lens) (F : SField) :
    ((merge_results results).getLens L).getS F =
      selectTop (tallyList (fieldVals results L F)) := by
  have h := foldl_mergeStep_projC L F results ⟨LensState.init, LensState.init⟩
  have h0 : ((⟨LensState.init, LensState.init⟩ : MergedState).getLens L).projC F
      = [] := by
    cases L <;> cases F <;> rfl
  rw [h0] at h
  have hfin : ((merge_results results).getLens L).getS F =
      selectTop (((results.foldl mergeStep
        ⟨LensState.init, LensState.init⟩).getLens L).projC F) := by
    cases L <;> cases F <;> rfl
  rw [hfin, h]
  rfl

lemma merge_results_SE (results : List Entry) (L : Lens) :
    ((merge_results results).getLens L).side_effects =
      (sideVals results L).dedup := by
  have h := foldl_mergeStep_projSE L results ⟨LensState.init, LensState.init⟩
  have h0 : ((⟨LensState.init, LensState.init⟩ : MergedState).getLens L).side_effects
      = [] := by
    cases L <;> rfl
  rw [h0] at h
  have hfin : ((merge_results results).getLens L).side_effects =
      ((results.foldl mergeStep
        ⟨LensState.init, LensState.init⟩).getLens L).side_effects.dedup := by
    cases L <;> rfl
  rw [hfin, h]
  simp

/-! ### Small computation lemmas used by the claims -/

lemma tally_single (v : String) : tallyList [v] = [(v, 1)] := by
  simp [tallyList, bump]

lemma tally_double (v : String) : tallyList [v, v] = [(v, 2)] := by
  simp [tallyList, List.foldl, bump]

lemma toFinset_dedup (l : List String) : l.dedup.toFinset = l.toFinset := by
  ext x
  simp [List.mem_toFinset, List.mem_dedup]

/-! ### The claims -/

/-- C1 (counterexample): calling `merge_results` on the empty sequence does
not fail and does produce output — exactly the all-`"Unknown"` consolidated
record the claim says it must not return. -/
theorem C1_empty_counterexample :
    merge_results [] =
      ⟨⟨"Unknown", "Unknown", [], "Unknown", "Unknown"⟩,
       ⟨"Unknown", "Unknown", [], "Unknown", "Unknown"⟩⟩ := by
  decide

/-- C1 (amended): `merge_results []` raises no `EmptyInputError` (no such
error exists in the code); it returns the consolidated record with every
scalar field equal to `"Unknown"` and both `side_effects` lists empty. -/
theorem C1_empty_amended :
    (∀ (L : Lens) (F : SField),
      ((merge_results []).getLens L).getS F = "Unknown") ∧
    (merge_results []).accurate.side_effects = [] ∧
    (merge_results []).guessed.side_effects = [] := by
  refine ⟨?_, rfl, rfl⟩
  intro L F
  cases L <;> cases F <;> rfl

/-- C2: for every input sequence, lens and scalar field with at least one
vote, the selected value is a vote of maximal tally whose first occurrence
in traversal order is earliest among the values tied for that tally; in
particular the `[A, B]` one-vote-each input consolidates `accurate.name`
to `"A"`. -/
theorem C2_tie_break :
    (∀ (results : List Entry) (L : Lens) (F : SField),
      fieldVals results L F ≠ [] →
      ((merge_results results).getLens L).getS F ∈ fieldVals results L F ∧
      (∀ v ∈ fieldVals results L F,
        (fieldVals results L F).count v ≤
          (fieldVals results L F).count
            (((merge_results results).getLens L).getS F)) ∧
      (∀ v ∈ fieldVals results L F,
        (fieldVals results L F).count v =
          (fieldVals results L F).count
            (((merge_results results).getLens L).getS F) →
        (fieldVals results L F).indexOf
            (((merge_results results).getLens L).getS F) ≤
          (fieldVals results L F).indexOf v)) ∧
    (merge_results [.obj { accurate := some { name := some "A" } },
                    .obj { accurate := some { name := some "B" } }]).accurate.name
      = "A" := by
  constructor
  · intro results L F h
    rw [merge_results_getS]
    exact selectTop_tallyList_spec (fieldVals results L F) h
  · decide

/-- C2 witness: the general clause applied to the concrete `[A, B]` input at
lens `accurate`, field `name`. -/
theorem C2_tie_break_witness :
    fieldVals [.obj { accurate := some { name := some "A" } },
               .obj { accurate := some { name := some "B" } }]
        Lens.accurate SField.name ≠ [] ∧
    ((merge_results [.obj { accurate := some { name := some "A" } },
                     .obj { accurate := some { name := some "B" } }]).getLens
        Lens.accurate).getS SField.name ∈
      fieldVals [.obj { accurate := some { name := some "A" } },
                 .obj { accurate := some { name := some "B" } }]
        Lens.accurate SField.name :=
  ⟨by decide, (C2_tie_break.1 _ Lens.accurate SField.name (by decide)).1⟩

/-- C3: per lens and scalar field, the consolidated value is computed from
exactly the values of results where the field is present (absent fields
cast no vote), and when at least one vote exists the selected value is a
vote of maximal tally; the `500mg, 500mg, 250mg` input consolidates
`accurate.dosage` to `"500mg"`. -/
theorem C3_plurality :
    (∀ (results : List Entry) (L : Lens) (F : SField),
      ((merge_results results).getLens L).getS F =
        selectTop (tallyList (fieldVals results L F)) ∧
      (fieldVals results L F ≠ [] →
        ((merge_results results).getLens L).getS F ∈ fieldVals results L F ∧
        ∀ v ∈ fieldVals results L F,
          (fieldVals results L F).count v ≤
            (fieldVals results L F).count
              (((merge_results results).getLens L).getS F))) ∧
    (merge_results [.obj { accurate := some { dosage := some "500mg" } },
                    .obj { accurate := some { dosage := some "500mg" } },
                    .obj { accurate := some { dosage := some "250mg" } }]).accurate.dosage
      = "500mg" := by
  constructor
  · intro results L F
    refine ⟨merge_results_getS results L F, ?_⟩
    intro h
    rw [merge_results_getS]
    obtain ⟨h1, h2, _⟩ := selectTop_tallyList_spec (fieldVals results L F) h
    exact ⟨h1, h2⟩
  · decide

/-- C3 witness: the general clause applied to the concrete three-vote
dosage input. -/
theorem C3_plurality_witness :
    fieldVals [.obj { accurate := some { dosage := some "500mg" } },
               .obj { accurate := some { dosage := some "500mg" } },
               .obj { accurate := some { dosage := some "250mg" } }]
        Lens.accurate SField.dosage ≠ [] ∧
    ((merge_results [.obj { accurate := some { dosage := some "500mg" } },
                     .obj { accurate := some { dosage := some "500mg" } },
                     .obj { accurate := some { dosage := some "250mg" } }]).getLens
        Lens.accurate).getS SField.dosage ∈
      fieldVals [.obj { accurate := some { dosage := some "500mg" } },
                 .obj { accurate := some { dosage := some "500mg" } },
                 .obj { accurate := some { dosage := some "250mg" } }]
        Lens.accurate SField.dosage :=
  ⟨by decide,
    ((C3_plurality.1 _ Lens.accurate SField.dosage).2 (by decide)).1⟩

/-- C4: a scalar field with zero votes consolidates to the literal
`"Unknown"` (under every lens, and every scalar field is structurally
present in the output); for the single-empty-dictionary input `[{}]` every
scalar field is `"Unknown"` and both `side_effects` lists are empty. -/
theorem C4_unknown_default :
    (∀ (results : List Entry) (L : Lens) (F : SField),
      fieldVals results L F = [] →
      ((merge_results results).getLens L).getS F = "Unknown") ∧
    (∀ (L : Lens) (F : SField),
      ((merge_results [.obj ⟨none, none⟩]).getLens L).getS F = "Unknown") ∧
    (merge_results [.obj ⟨none, none⟩]).accurate.side_effects = [] ∧
    (merge_results [.obj ⟨none, none⟩]).guessed.side_effects = [] := by
  refine ⟨?_, ?_, rfl, rfl⟩
  · intro results L F h
    rw [merge_results_getS, h]
    rfl
  · intro L F
    cases L <;> cases F <;> rfl

/-- C4 witness: the zero-vote clause applied to the concrete input `[{}]`
at lens `guessed`, field `dosage`. -/
theorem C4_unknown_default_witness :
    fieldVals [.obj ⟨none, none⟩] Lens.guessed SField.dosage = [] ∧
    ((merge_results [.obj ⟨none, none⟩]).getLens Lens.guessed).getS SField.dosage
      = "Unknown" :=
  ⟨by decide, C4_unknown_default.1 _ Lens.guessed SField.dosage (by decide)⟩

/-- C5: per lens, the consolidated `side_effects`, viewed as a set, is the
union of the contributed `side_effects` lists, with duplicates removed
(the output list is duplicate-free); the `["nausea"]` + `["nausea","rash"]`
input yields the set `{"nausea","rash"}`. -/
theorem C5_side_effects_union :
    (∀ (results : List Entry) (L : Lens),
      (∀ s : String,
        s ∈ ((merge_results results).getLens L).side_effects ↔
          ∃ e ∈ results, s ∈ entrySE e L) ∧
      ((merge_results results).getLens L).side_effects.Nodup) ∧
    (merge_results
        [.obj { accurate := some { side_effects := some ["nausea"] } },
         .obj { accurate := some { side_effects := some ["nausea", "rash"] } }]
      ).accurate.side_effects.toFinset = {"nausea", "rash"} := by
  constructor
  · intro results L
    constructor
    · intro s
      rw [merge_results_SE]
      simp [List.mem_dedup, sideVals, List.mem_flatten]
    · rw [merge_results_SE]
      exact (sideVals results L).nodup_dedup
  · decide

/-- C6: merging a single result and merging that result repeated twice give
the same consolidated output, with `side_effects` compared as sets. -/
theorem C6_idempotent_repeat (r : ImageResult) :
    ConsolidatedResult.equivSet (merge_results [Entry.obj r])
      (merge_results [Entry.obj r, Entry.obj r]) := by
  have key : ∀ (L : Lens) (F : SField),
      ((merge_results [Entry.obj r]).getLens L).getS F =
        ((merge_results [Entry.obj r, Entry.obj r]).getLens L).getS F := by
    intro L F
    rw [merge_results_getS, merge_results_getS]
    have h1 : fieldVals [Entry.obj r] L F = (entryVal (Entry.obj r) L F).toList := by
      cases h : entryVal (Entry.obj r) L F <;>
        simp [fieldVals, List.filterMap_cons, h]
    have h2 : fieldVals [Entry.obj r, Entry.obj r] L F =
        (entryVal (Entry.obj r) L F).toList ++ (entryVal (Entry.obj r) L F).toList := by
      cases h : entryVal (Entry.obj r) L F <;>
        simp [fieldVals, List.filterMap_cons, h]
    rw [h1, h2]
    cases entryVal (Entry.obj r) L F with
    | none => rfl
    | some v =>
      rw [show (some v).toList ++ (some v).toList = [v, v] from rfl,
        show (some v).toList = [v] from rfl, tally_single, tally_double]
      rfl
  have keySE : ∀ L : Lens,
      ((merge_results [Entry.obj r]).getLens L).side_effects.toFinset =
        ((merge_results [Entry.obj r, Entry.obj r]).getLens L).side_effects.toFinset := by
    intro L
    rw [merge_results_SE, merge_results_SE, toFinset_dedup, toFinset_dedup]
    simp [sideVals]
  exact ⟨⟨key .accurate .name, key .accurate .dosage, key .accurate .manufacturer,
      key .accurate .usage, keySE .accurate⟩,
    ⟨key .guessed .name, key .guessed .dosage, key .guessed .manufacturer,
      key .guessed .usage, keySE .guessed⟩⟩

/-- C7: `merge_results` is total on every non-empty sequence (it is a Lean
function, hence terminating), and every consolidated scalar field is either
`"Unknown"` or one of the values cast for that field by some input
result. -/
theorem C7_range (results : List Entry) (_h : results ≠ [])
    (L : Lens) (F : SField) :
    ((merge_results results).getLens L).getS F = "Unknown" ∨
    ((merge_results results).getLens L).getS F ∈ fieldVals results L F := by
  by_cases hf : fieldVals results L F = []
  · left
    rw [merge_results_getS, hf]
    rfl
  · right
    rw [merge_results_getS]
    exact (selectTop_tallyList_spec (fieldVals results L F) hf).1

/-- C7 witness: the range property at a concrete two-element input. -/
theorem C7_range_witness :
    ([Entry.obj { accurate := some { name := some "A" } }, Entry.nondict] ≠
        ([] : List Entry)) ∧
    (((merge_results [Entry.obj { accurate := some { name := some "A" } },
          Entry.nondict]).getLens Lens.accurate).getS SField.name = "Unknown" ∨
      ((merge_results [Entry.obj { accurate := some { name := some "A" } },
          Entry.nondict]).getLens Lens.accurate).getS SField.name ∈
        fieldVals [Entry.obj { accurate := some { name := some "A" } },
          Entry.nondict] Lens.accurate SField.name) :=
  ⟨by decide, C7_range _ (by decide) Lens.accurate SField.name⟩

/-- C8: the endpoint returns the fixed error object exactly when no usable
response survives the failure-marker filter (so the aggregator is never
consulted), and otherwise returns the merged result of the surviving
responses wrapped as `medicine`. -/
theorem C8_endpoint (outcomes : List AnalyzeOutcome) :
    (usableResponses outcomes = [] →
      identify_medicine outcomes =
        .error "Failed to identify medicine from provided images") ∧
    (usableResponses outcomes ≠ [] →
      identify_medicine outcomes =
        .medicine (merge_results (usableResponses outcomes))) := by
  constructor <;> intro h <;> simp [identify_medicine, h]

/-- C8 witness: both endpoint branches at concrete batches — an all-failure
batch and a batch with one usable response. -/
theorem C8_endpoint_witness :
    (usableResponses [AnalyzeOutcome.errorDict] = [] ∧
      identify_medicine [AnalyzeOutcome.errorDict] =
        .error "Failed to identify medicine from provided images") ∧
    (usableResponses [AnalyzeOutcome.errorDict,
        AnalyzeOutcome.result (Entry.obj ⟨none, none⟩)] ≠ [] ∧
      identify_medicine [AnalyzeOutcome.errorDict,
          AnalyzeOutcome.result (Entry.obj ⟨none, none⟩)] =
        .medicine (merge_results (usableResponses [AnalyzeOutcome.errorDict,
          AnalyzeOutcome.result (Entry.obj ⟨none, none⟩)]))) :=
  ⟨⟨by decide, (C8_endpoint _).1 (by decide)⟩,
   ⟨by decide, (C8_endpoint _).2 (by decide)⟩⟩

/-- C9: `merge_results` is deterministic in its input value: equal input
sequences give equal consolidated outputs, also under the set view of
`side_effects`.  (Freedom from mutation of the inputs is structural: the
embedding is a function of an immutable sequence, matching the source loop,
which only reads from `result`.) -/
theorem C9_pure (rs1 rs2 : List Entry) (h : rs1 = rs2) :
    merge_results rs1 = merge_results rs2 ∧
    ConsolidatedResult.equivSet (merge_results rs1) (merge_results rs2) := by
  subst h
  exact ⟨rfl, ⟨⟨rfl, rfl, rfl, rfl, rfl⟩, ⟨rfl, rfl, rfl, rfl, rfl⟩⟩⟩

/-- C9 witness: determinism at a concrete input. -/
theorem C9_pure_witness :
    ([Entry.obj { accurate := some { name := some "A" } }] =
        [Entry.obj { accurate := some { name := some "A" } }]) ∧
    merge_results [Entry.obj { accurate := some { name := some "A" } }] =
      merge_results [Entry.obj { accurate := some { name := some "A" } }] :=
  ⟨rfl, (C9_pure _ _ rfl).1⟩

/-- C10 (implicit): a non-dictionary entry is skipped silently — the loop
step leaves the accumulator untouched on it, and the whole output equals
that of the input with all non-dictionary entries filtered out. -/
theorem C10_nondict_skipped (results : List Entry) :
    merge_results results = merge_results (results.filter Entry.isDict) ∧
    (∀ st : MergedState, mergeStep st Entry.nondict = st) := by
  constructor
  · have hfold : ∀ (rs : List Entry) (st : MergedState),
        rs.foldl mergeStep st = (rs.filter Entry.isDict).foldl mergeStep st := by
      intro rs
      induction rs with
      | nil => intro st; rfl
      | cons e tl ih =>
        intro st
        cases e with
        | obj r =>
          simp [List.filter_cons, Entry.isDict, List.foldl_cons, ih]
        | nondict =>
          simp [List.filter_cons, Entry.isDict, List.foldl_cons, ih]
          rw [show mergeStep st Entry.nondict = st from rfl]
    simp [merge_results, hfold]
  · intro st
    rfl

end MedIdent
